import Mathlib

/-!
Verification of the species-CSV transformation tool
(`src/data/taxa/transform_species_csv.py`).

The tool's text-processing core is embedded shallowly over `List Char`:

* a file is a list of lines (each a `List Char`, without its terminator,
  matching Python's per-line iteration followed by `strip()`);
* Python's `random.randint(1, max_val)` is modelled by a caller-supplied
  stream `rand : Nat → Nat` of raw draws, each draw mapped into the closed
  range `[1, max_val]` (the contract of `randint`); the
  draw-until-unused loop receives explicit fuel, and exhausted fuel models
  the (probability-zero under a fair source) case of the Python loop never
  finding a fresh identifier, so the first pass is `Option`-valued;
* Python exceptions caught by the code (`ValueError`/`IndexError`) appear
  as explicit branches; a `KeyError` on a dictionary lookup, which the code
  does not catch, appears as a distinguished `crash` outcome.

The ZIP plumbing, encoding trials and console output are not modelled:
none of the verified statements depend on them.
-/

namespace SpeciesCsv

/-- The character list of a string literal. -/
def chars (s : String) : List Char := s.toList

/-- Whitespace characters removed by Python's `str.strip()` (ASCII set). -/
def isPySpace (c : Char) : Bool :=
  c == ' ' || c == '\t' || c == '\n' || c == '\r' || c == '\x0b' || c == '\x0c'

/-- Python `line.strip()`: remove leading and trailing whitespace. -/
def pyStrip (s : List Char) : List Char :=
  ((s.dropWhile isPySpace).reverse.dropWhile isPySpace).reverse

/-- Python `line.split(c)` for a single-character separator: always returns
at least one (possibly empty) field. -/
def splitOnChar (c : Char) : List Char → List (List Char)
  | [] => [[]]
  | x :: xs =>
    match splitOnChar c xs with
    | [] => [[]]
    | y :: ys => if x == c then [] :: y :: ys else (x :: y) :: ys

/-- Digit-string to number; `none` when empty or containing a non-digit. -/
def parseDigits (l : List Char) : Option Nat :=
  if !l.isEmpty && l.all Char.isDigit then
    some (l.foldl (fun a c => 10 * a + (c.toNat - 48)) 0)
  else none

/-- Python `int(s)` on the decimal strings occurring in this data format:
surrounding whitespace is stripped, an optional sign is accepted, and the
remainder must be a non-empty digit string.  (Underscore separators and
non-ASCII digits, which CPython also accepts, do not occur in this format
and are not modelled.) -/
def parseInt (s : List Char) : Option Int :=
  match pyStrip s with
  | '+' :: rest => (parseDigits rest).map Int.ofNat
  | '-' :: rest => (parseDigits rest).map (fun n => -(Int.ofNat n))
  | t => (parseDigits t).map Int.ofNat

/-- Python `p in s` on strings: substring containment. -/
def containsSub (s p : List Char) : Bool :=
  (List.range (s.length + 1)).any fun i => p.isPrefixOf (s.drop i)

/-- One step of Python `s.replace(p, r)` with explicit fuel: scan left to
right, replace each non-overlapping occurrence of `p`, continue after the
replacement.  Fuel bounds the number of scanned positions; `s.length` is
always enough (each step consumes at least one character of `s`). -/
def replaceAllF (p r : List Char) : Nat → List Char → List Char
  | _, [] => []
  | 0, s => s
  | fuel + 1, c :: s =>
    if !p.isEmpty && p.isPrefixOf (c :: s) then
      r ++ replaceAllF p r fuel (List.drop p.length (c :: s))
    else
      c :: replaceAllF p r fuel s

/-- Python `s.replace(p, r)`. -/
def replaceAll (p r s : List Char) : List Char := replaceAllF p r s.length s

/-! ## Record parser (`parse_csv_file`) -/

/-- Parser state: whether the data header has been seen, the stored
metadata lines, and the collected raw data rows (each already split
on `;`). -/
structure ParseSt where
  headerFound : Bool
  meta : List (List Char)
  rows : List (List (List Char))
deriving DecidableEq

/-- The header test of `parse_csv_file`:
`'SPECIES_NR' in line and 'NAME' in line and 'GENUS' in line`. -/
def isHeaderLine (l : List Char) : Bool :=
  containsSub l (chars "SPECIES_NR") && containsSub l (chars "NAME") &&
    containsSub l (chars "GENUS")

/-- One line of the `parse_csv_file` loop: strip, skip blanks; before the
header, a `;`-line is either recognised as the header or stored as
metadata; after the header every non-blank line is split on `;` and kept
when it has at least 8 fields. -/
def parseLine (st : ParseSt) (raw : List Char) : ParseSt :=
  let line := pyStrip raw
  if line.isEmpty then st
  else if line.contains ';' && !st.headerFound then
    if isHeaderLine line then { st with headerFound := true }
    else { st with meta := st.meta ++ [line] }
  else if st.headerFound then
    let parts := splitOnChar ';' line
    if 8 ≤ parts.length then { st with rows := st.rows ++ [parts] } else st
  else st

/-- `parse_csv_file`, on an already-decoded list of lines. -/
def parse_csv_file (lines : List (List Char)) : ParseSt :=
  lines.foldl parseLine ⟨false, [], []⟩

/-- The stripped non-blank lines strictly after the header line (the
"input data lines" of the row-count law). -/
def dataLinesAux : Bool → List (List Char) → List (List Char)
  | _, [] => []
  | found, raw :: rest =>
    let line := pyStrip raw
    if line.isEmpty then dataLinesAux found rest
    else if found then line :: dataLinesAux true rest
    else if line.contains ';' && isHeaderLine line then dataLinesAux true rest
    else dataLinesAux false rest

/-- The input data lines of a file: stripped non-blank lines after the
recognised header. -/
def dataLines (lines : List (List Char)) : List (List Char) :=
  dataLinesAux false lines

/-! ## Identifier remapper (first pass of `transform_species_csv`) -/

/-- `2**64 - 10**10 - 1`, the largest identifier `generate_64bit_id` may
return in its default mode. -/
def maxId : Nat := 2 ^ 64 - 10 ^ 10 - 1

/-- `generate_64bit_id()` in its default (exclude-upper-10-billion) mode:
`random.randint(1, max_val)` applied to one raw draw from the modelled
random source, giving a value in the closed range `[1, maxId]`. -/
def generate_64bit_id (raw : Nat) : Nat := 1 + raw % maxId

/-- State of the first pass: the old-ID → new-ID association (unique
keys), the used-ID set, and the position reached in the random stream. -/
structure MapSt where
  m : List (Int × Nat)
  used : List Nat
  idx : Nat
deriving DecidableEq

/-- Dictionary lookup in the old-ID → new-ID association. -/
def lookupM : List (Int × Nat) → Int → Option Nat
  | [], _ => none
  | (k, v) :: rest, key => if key = k then some v else lookupM rest key

/-- The `while new_id in used_ids: new_id = generate_64bit_id()` loop:
draw candidates from the stream until one is not in the used set,
giving the candidate and the next stream position.  `none` models the
loop never terminating within `fuel` draws. -/
def pickFresh (rand : Nat → Nat) : Nat → Nat → List Nat → Option (Nat × Nat)
  | 0, _, _ => none
  | fuel + 1, idx, used =>
    if generate_64bit_id (rand idx) ∈ used then pickFresh rand fuel (idx + 1) used
    else some (generate_64bit_id (rand idx), idx + 1)

/-- `if old_id not in old_to_new_id:` generate a fresh ID and record it in
both the mapping and the used set. -/
def insertId (rand : Nat → Nat) (fuel : Nat) (k : Int) (st : MapSt) :
    Option MapSt :=
  match lookupM st.m k with
  | some _ => some st
  | none =>
    match pickFresh rand fuel st.idx st.used with
    | none => none
    | some (nid, idx2) => some ⟨(k, nid) :: st.m, nid :: st.used, idx2⟩

/-- One row of the first pass: rows with fewer than 7 fields are skipped;
field 0 is parsed as the own-ID and (when the row has more than 6 fields,
which under the outer guard is always) field 6 as the valid-ID; a parse
failure skips the row before any insertion; otherwise both IDs are given
fresh mappings if absent. -/
def firstPassRow (rand : Nat → Nat) (fuel : Nat) (st : MapSt)
    (row : List (List Char)) : Option MapSt :=
  if 7 ≤ row.length then
    match parseInt (row.getD 0 []) with
    | none => some st
    | some own =>
      match (if 6 < row.length then parseInt (row.getD 6 []) else some own) with
      | none => some st
      | some valid =>
        match insertId rand fuel own st with
        | none => none
        | some st1 => insertId rand fuel valid st1
  else some st

/-- The whole first pass over the parsed data rows. -/
def buildMapping (rand : Nat → Nat) (fuel : Nat)
    (rows : List (List (List Char))) : Option MapSt :=
  List.foldlM (firstPassRow rand fuel) ⟨[], [], 0⟩ rows

/-! ## Row transformer (second pass of `transform_species_csv`) -/

/-- `str(n)` for the generated numeric identifiers. -/
def natToChars (n : Nat) : List Char := (Nat.repr n).toList

/-- Outcome of transforming one raw row: dropped by the guard or the
caught `ValueError` (`skip`), an uncaught `KeyError` on a mapping lookup
(`crash`), or a transformed row (`ok`). -/
inductive TRes where
  | skip : TRes
  | crash : TRes
  | ok : List (List Char) → TRes
deriving DecidableEq

/-- The second-pass body for one row: rows with fewer than 8 fields are
dropped; field 0 and field 6 are parsed (a failure is the caught
`ValueError`); both old IDs are looked up in the mapping (a miss would be
an uncaught `KeyError`); the transformed row is
`[str(new_own), name, genus, species, synonym, str(new_valid), valid_name, "", ""]`. -/
def transformRow (m : List (Int × Nat)) (row : List (List Char)) : TRes :=
  if 8 ≤ row.length then
    match parseInt (row.getD 0 []) with
    | none => TRes.skip
    | some own =>
      match parseInt (row.getD 6 []) with
      | none => TRes.skip
      | some valid =>
        match lookupM m own with
        | none => TRes.crash
        | some nOwn =>
          match lookupM m valid with
          | none => TRes.crash
          | some nValid =>
            TRes.ok [natToChars nOwn, row.getD 1 [], row.getD 2 [],
              row.getD 3 [], row.getD 5 [], natToChars nValid,
              row.getD 7 [], [], []]
  else TRes.skip

/-- The second pass over all rows, in order; a `crash` aborts the run. -/
def runTransform (m : List (Int × Nat)) :
    List (List (List Char)) → Option (List (List (List Char)))
  | [] => some []
  | row :: rest =>
    match transformRow m row with
    | TRes.crash => none
    | TRes.skip => runTransform m rest
    | TRes.ok r => (runTransform m rest).map (r :: ·)

/-! ## Output writer -/

/-- The metadata rewrite: a line starting with `SPECIES_LU_VERSION` is
split on the first `;`; with a `;` the key is replaced by `SPECIES_LU`
and the remainder kept verbatim, without one the key is substring-replaced;
all other lines are returned unchanged. -/
def fixMetaLine (l : List Char) : List Char :=
  if (chars "SPECIES_LU_VERSION").isPrefixOf l then
    if l.contains ';' then
      chars "SPECIES_LU;" ++ (l.dropWhile (fun c => c != ';')).tail
    else
      replaceAll (chars "SPECIES_LU_VERSION") (chars "SPECIES_LU") l
  else l

/-- The fixed new header line written to every output file. -/
def newHeader : List Char :=
  chars "SPECIES_NR;NAME;GENUS;SPECIES;SYNONYM;VALID_NR;VALID_NAME;PARENT_NR;PARENT_NAME"

/-- Python `';'.join(row)`. -/
def joinSemi : List (List Char) → List Char
  | [] => []
  | [x] => x
  | x :: y :: ys => x ++ ';' :: joinSemi (y :: ys)

/-- The serialized output text before the boolean-token substitution:
rewritten metadata lines, the fixed new header, then the transformed rows
joined on `;`, each line terminated by `\n`. -/
def serializeOutput (meta : List (List Char))
    (rows : List (List (List Char))) : List Char :=
  (meta.map (· ++ ['\n'])).flatten ++ newHeader ++ ['\n'] ++
    (rows.map (fun r => joinSemi r ++ ['\n'])).flatten

/-- The whole-file boolean-token substitution performed on the re-read
output: `;WAHR;` → `;TRUE;` first, then `;FALSCH;` → `;FALSE;`. -/
def boolNormalize (s : List Char) : List Char :=
  replaceAll (chars ";FALSCH;") (chars ";FALSE;")
    (replaceAll (chars ";WAHR;") (chars ";TRUE;") s)

/-- The pipeline of `transform_species_csv` up to (and including) writing
the serialized text, before the boolean-token substitution. -/
def serializedOutput (rand : Nat → Nat) (fuel : Nat)
    (lines : List (List Char)) : Option (List Char) :=
  let P := parse_csv_file lines
  match buildMapping rand fuel P.rows with
  | none => none
  | some mst =>
    match runTransform mst.m P.rows with
    | none => none
    | some out => some (serializeOutput (P.meta.map fixMetaLine) out)

/-- `transform_species_csv` end to end on an already-decoded list of
input lines: parse, rewrite metadata, build the ID mapping, transform the
rows, serialize, then substitute the boolean tokens over the whole text. -/
def transform_species_csv (rand : Nat → Nat) (fuel : Nat)
    (lines : List (List Char)) : Option (List Char) :=
  let P := parse_csv_file lines
  let newMeta := P.meta.map fixMetaLine
  match buildMapping rand fuel P.rows with
  | none => none
  | some mst =>
    match runTransform mst.m P.rows with
    | none => none
    | some out =>
      let content := (newMeta.map (· ++ ['\n'])).flatten ++ newHeader ++
        ['\n'] ++ (out.map (fun r => joinSemi r ++ ['\n'])).flatten
      let content2 := replaceAll (chars ";WAHR;") (chars ";TRUE;") content
      some (replaceAll (chars ";FALSCH;") (chars ";FALSE;") content2)

/-! ## Properties used by the claims -/

/-- The mapping invariant claimed for the first pass: the association is
injective and every assigned new ID lies in `[1, maxId]`. -/
def IdMapOK (st : MapSt) : Prop :=
  (∀ k1 k2 v, lookupM st.m k1 = some v → lookupM st.m k2 = some v → k1 = k2) ∧
  (∀ k v, lookupM st.m k = some v → 1 ≤ v ∧ v ≤ maxId)

/-- Internal invariant of the first pass: assigned new IDs are pairwise
distinct, recorded in the used set, and in range. -/
def MapInv (st : MapSt) : Prop :=
  (st.m.map Prod.snd).Nodup ∧
  ∀ p ∈ st.m, p.2 ∈ st.used ∧ 1 ≤ p.2 ∧ p.2 ≤ maxId

/-- The transformed row of a `TRes`, when there is one. -/
def toOpt : TRes → Option (List (List Char))
  | TRes.ok r => some r
  | _ => none

/-- A stripped data line survives to the output exactly when it has at
least 8 `;`-separated fields and both its own-ID (field 0) and valid-ID
(field 6) parse as integers. -/
def keepsRow (l : List Char) : Bool :=
  let parts := splitOnChar ';' l
  decide (8 ≤ parts.length) && (parseInt (parts.getD 0 [])).isSome &&
    (parseInt (parts.getD 6 [])).isSome

/-- The row-count law relative to a mapping state: the second pass
succeeds, keeps exactly the data lines satisfying `keepsRow`, and emits
at most as many rows as there are data lines. -/
def DropLaw (st : MapSt) (lines : List (List Char)) : Prop :=
  ∃ out, runTransform st.m (parse_csv_file lines).rows = some out ∧
    out = (dataLines lines).filterMap
      (fun l => toOpt (transformRow st.m (splitOnChar ';' l))) ∧
    (∀ l ∈ dataLines lines,
      (toOpt (transformRow st.m (splitOnChar ';' l))).isSome = keepsRow l) ∧
    out.length ≤ (dataLines lines).length

/-! ## Lemmas about the identifier remapper -/

theorem maxId_pos : 0 < maxId := by decide

theorem generate_64bit_id_range (raw : Nat) :
    1 ≤ generate_64bit_id raw ∧ generate_64bit_id raw ≤ maxId := by
  unfold generate_64bit_id
  have h := Nat.mod_lt raw maxId_pos
  omega

theorem pickFresh_spec (rand : Nat → Nat) :
    ∀ fuel idx used c i2, pickFresh rand fuel idx used = some (c, i2) →
      c ∉ used ∧ 1 ≤ c ∧ c ≤ maxId := by
  intro fuel
  induction fuel with
  | zero => intro idx used c i2 h; simp [pickFresh] at h
  | succ f ih =>
    intro idx used c i2 h
    unfold pickFresh at h
    split at h
    · exact ih _ _ _ _ h
    · rename_i hni
      obtain ⟨rfl, rfl⟩ : generate_64bit_id (rand idx) = c ∧ idx + 1 = i2 := by
        simpa using h
      exact ⟨hni, generate_64bit_id_range _⟩

theorem lookupM_mem {m : List (Int × Nat)} {k : Int} {v : Nat}
    (h : lookupM m k = some v) : (k, v) ∈ m := by
  induction m with
  | nil => simp [lookupM] at h
  | cons p rest ih =>
    obtain ⟨a, b⟩ := p
    unfold lookupM at h
    split at h
    · rename_i he
      obtain rfl : b = v := by simpa using h
      subst he
      exact List.mem_cons_self _ _
    · exact List.mem_cons_of_mem _ (ih h)

theorem nodup_snd_key_unique {m : List (Int × Nat)} {k1 k2 : Int} {v : Nat}
    (hnd : (m.map Prod.snd).Nodup) (h1 : (k1, v) ∈ m) (h2 : (k2, v) ∈ m) :
    k1 = k2 := by
  induction m with
  | nil => simp at h1
  | cons p rest ih =>
    obtain ⟨a, b⟩ := p
    simp only [List.map_cons, List.nodup_cons] at hnd
    rcases List.mem_cons.mp h1 with hh1 | ht1
    · simp only [Prod.mk.injEq] at hh1
      obtain ⟨rfl, rfl⟩ := hh1
      rcases List.mem_cons.mp h2 with hh2 | ht2
      · simp only [Prod.mk.injEq] at hh2
        exact hh2.1.symm
      · exact absurd (List.mem_map.mpr ⟨(k2, v), ht2, rfl⟩) hnd.1
    · rcases List.mem_cons.mp h2 with hh2 | ht2
      · simp only [Prod.mk.injEq] at hh2
        obtain ⟨rfl, rfl⟩ := hh2
        exact absurd (List.mem_map.mpr ⟨(k1, v), ht1, rfl⟩) hnd.1
      · exact ih hnd.2 ht1 ht2

theorem insertId_inv {rand : Nat → Nat} {fuel : Nat} {k : Int} {st st2 : MapSt}
    (hinv : MapInv st) (h : insertId rand fuel k st = some st2) : MapInv st2 := by
  unfold insertId at h
  split at h
  · obtain rfl : st = st2 := by simpa using h
    exact hinv
  · rename_i hnone
    split at h
    · exact absurd h (by simp)
    · rename_i nid idx2 hp
      obtain rfl : MapSt.mk ((k, nid) :: st.m) (nid :: st.used) idx2 = st2 := by
        simpa using h
      obtain ⟨hfresh, h1, h2⟩ := pickFresh_spec rand _ _ _ _ _ hp
      obtain ⟨hnd, hmem⟩ := hinv
      refine ⟨?_, ?_⟩
      · simp only [List.map_cons, List.nodup_cons]
        refine ⟨fun hc => ?_, hnd⟩
        obtain ⟨p, hpmem, hpv⟩ := List.mem_map.mp hc
        exact hfresh (hpv ▸ (hmem p hpmem).1)
      · intro p hp2
        rcases List.mem_cons.mp hp2 with rfl | ht
        · exact ⟨List.mem_cons_self _ _, h1, h2⟩
        · obtain ⟨hu, hr⟩ := hmem p ht
          exact ⟨List.mem_cons_of_mem _ hu, hr⟩

theorem insertId_mono {rand : Nat → Nat} {fuel : Nat} {k k2 : Int} {v : Nat}
    {st st2 : MapSt} (h : insertId rand fuel k st = some st2)
    (hl : lookupM st.m k2 = some v) : lookupM st2.m k2 = some v := by
  unfold insertId at h
  split at h
  · obtain rfl : st = st2 := by simpa using h
    exact hl
  · rename_i hnone
    split at h
    · exact absurd h (by simp)
    · rename_i nid idx2 hp
      obtain rfl : MapSt.mk ((k, nid) :: st.m) (nid :: st.used) idx2 = st2 := by
        simpa using h
      show lookupM ((k, nid) :: st.m) k2 = some v
      unfold lookupM
      split
      · rename_i he
        rw [he] at hl
        rw [hl] at hnone
        exact absurd hnone (by simp)
      · exact hl

theorem insertId_isSome {rand : Nat → Nat} {fuel : Nat} {k : Int}
    {st st2 : MapSt} (h : insertId rand fuel k st = some st2) :
    (lookupM st2.m k).isSome := by
  unfold insertId at h
  split at h
  · rename_i v hv
    obtain rfl : st = st2 := by simpa using h
    simp [hv]
  · split at h
    · exact absurd h (by simp)
    · rename_i nid idx2 hp
      obtain rfl : MapSt.mk ((k, nid) :: st.m) (nid :: st.used) idx2 = st2 := by
        simpa using h
      show (lookupM ((k, nid) :: st.m) k).isSome
      simp [lookupM]

theorem firstPassRow_inv {rand : Nat → Nat} {fuel : Nat} {st st2 : MapSt}
    {row : List (List Char)} (hinv : MapInv st)
    (h : firstPassRow rand fuel st row = some st2) : MapInv st2 := by
  unfold firstPassRow at h
  split at h
  · split at h
    · obtain rfl : st = st2 := by simpa using h
      exact hinv
    · split at h
      · obtain rfl : st = st2 := by simpa using h
        exact hinv
      · split at h
        · exact absurd h (by simp)
        · rename_i st1 hins
          exact insertId_inv (insertId_inv hinv hins) h
  · obtain rfl : st = st2 := by simpa using h
    exact hinv

theorem firstPassRow_mono {rand : Nat → Nat} {fuel : Nat} {st st2 : MapSt}
    {row : List (List Char)} {k : Int} {v : Nat}
    (h : firstPassRow rand fuel st row = some st2)
    (hl : lookupM st.m k = some v) : lookupM st2.m k = some v := by
  unfold firstPassRow at h
  split at h
  · split at h
    · obtain rfl : st = st2 := by simpa using h
      exact hl
    · split at h
      · obtain rfl : st = st2 := by simpa using h
        exact hl
      · split at h
        · exact absurd h (by simp)
        · rename_i st1 hins
          exact insertId_mono h (insertId_mono hins hl)
  · obtain rfl : st = st2 := by simpa using h
    exact hl

theorem foldFirst_inv {rand : Nat → Nat} {fuel : Nat} :
    ∀ (rows : List (List (List Char))) (st st2 : MapSt), MapInv st →
      List.foldlM (firstPassRow rand fuel) st rows = some st2 → MapInv st2 := by
  intro rows
  induction rows with
  | nil =>
    intro st st2 hinv h
    obtain rfl : st = st2 := by simpa [List.foldlM] using h
    exact hinv
  | cons r rs ih =>
    intro st st2 hinv h
    rw [List.foldlM_cons] at h
    cases hr : firstPassRow rand fuel st r with
    | none => rw [hr] at h; exact absurd h (by simp)
    | some st1 =>
      rw [hr] at h
      exact ih st1 st2 (firstPassRow_inv hinv hr) h

theorem foldFirst_mono {rand : Nat → Nat} {fuel : Nat} :
    ∀ (rows : List (List (List Char))) (st st2 : MapSt) (k : Int) (v : Nat),
      List.foldlM (firstPassRow rand fuel) st rows = some st2 →
      lookupM st.m k = some v → lookupM st2.m k = some v := by
  intro rows
  induction rows with
  | nil =>
    intro st st2 k v h hl
    obtain rfl : st = st2 := by simpa [List.foldlM] using h
    exact hl
  | cons r rs ih =>
    intro st st2 k v h hl
    rw [List.foldlM_cons] at h
    cases hr : firstPassRow rand fuel st r with
    | none => rw [hr] at h; exact absurd h (by simp)
    | some st1 =>
      rw [hr] at h
      exact ih st1 st2 k v h (firstPassRow_mono hr hl)

theorem foldFirst_mono_isSome {rand : Nat → Nat} {fuel : Nat}
    {rows : List (List (List Char))} {st st2 : MapSt} {k : Int}
    (h : List.foldlM (firstPassRow rand fuel) st rows = some st2)
    (hl : (lookupM st.m k).isSome) : (lookupM st2.m k).isSome := by
  obtain ⟨v, hv⟩ := Option.isSome_iff_exists.mp hl
  exact Option.isSome_iff_exists.mpr ⟨v, foldFirst_mono rows st st2 k v h hv⟩

theorem insertId_mono_isSome {rand : Nat → Nat} {fuel : Nat} {k k2 : Int}
    {st st2 : MapSt} (h : insertId rand fuel k st = some st2)
    (hl : (lookupM st.m k2).isSome) : (lookupM st2.m k2).isSome := by
  obtain ⟨v, hv⟩ := Option.isSome_iff_exists.mp hl
  exact Option.isSome_iff_exists.mpr ⟨v, insertId_mono h hv⟩

theorem firstPassRow_process {rand : Nat → Nat} {fuel : Nat} {st st1 : MapSt}
    {row : List (List Char)} {a b : Int} (h7 : 7 ≤ row.length)
    (ha : parseInt (row.getD 0 []) = some a)
    (hb : parseInt (row.getD 6 []) = some b)
    (h : firstPassRow rand fuel st row = some st1) :
    ∃ stA, insertId rand fuel a st = some stA ∧
      insertId rand fuel b stA = some st1 := by
  have h6 : 6 < row.length := h7
  unfold firstPassRow at h
  rw [if_pos h7] at h
  split at h
  · rename_i hnone
    rw [ha] at hnone
    exact absurd hnone (by simp)
  · rename_i own hown
    rw [ha] at hown
    obtain rfl : a = own := by simpa using hown
    split at h
    · rename_i hvn
      rw [if_pos h6, hb] at hvn
      exact absurd hvn (by simp)
    · rename_i valid hv
      rw [if_pos h6, hb] at hv
      obtain rfl : b = valid := by simpa using hv
      split at h
      · exact absurd h (by simp)
      · rename_i stA hins
        exact ⟨stA, hins, h⟩

theorem foldFirst_covers {rand : Nat → Nat} {fuel : Nat} {a b : Int} :
    ∀ (rows : List (List (List Char))) (st0 st2 : MapSt)
      (row : List (List Char)),
      List.foldlM (firstPassRow rand fuel) st0 rows = some st2 → row ∈ rows →
      7 ≤ row.length → parseInt (row.getD 0 []) = some a →
      parseInt (row.getD 6 []) = some b →
      (lookupM st2.m a).isSome ∧ (lookupM st2.m b).isSome := by
  intro rows
  induction rows with
  | nil => intro st0 st2 row h hmem; simp at hmem
  | cons r rs ih =>
    intro st0 st2 row h hmem h7 ha hb
    rw [List.foldlM_cons] at h
    cases hr : firstPassRow rand fuel st0 r with
    | none => rw [hr] at h; exact absurd h (by simp)
    | some st1 =>
      rw [hr] at h
      rcases List.mem_cons.mp hmem with rfl | htail
      · obtain ⟨stA, hins, hins2⟩ := firstPassRow_process h7 ha hb hr
        have hA : (lookupM stA.m a).isSome := insertId_isSome hins
        have hA1 : (lookupM st1.m a).isSome := insertId_mono_isSome hins2 hA
        have hB1 : (lookupM st1.m b).isSome := insertId_isSome hins2
        exact ⟨foldFirst_mono_isSome h hA1, foldFirst_mono_isSome h hB1⟩
      · exact ih st1 st2 row h htail h7 ha hb

theorem buildMapping_inv {rand : Nat → Nat} {fuel : Nat}
    {rows : List (List (List Char))} {st : MapSt}
    (h : buildMapping rand fuel rows = some st) : MapInv st := by
  have hinit : MapInv ⟨[], [], 0⟩ := ⟨List.nodup_nil, by simp⟩
  exact foldFirst_inv rows _ st hinit h

/-- Claim C1: the old-ID → new-ID mapping built by the first pass of
`transform_species_csv` is injective (no two distinct legacy IDs map to
the same new ID, enforced by the used-ID set consulted before each
insertion), and every assigned new ID lies in `[1, 2^64 - 10^10 - 1]`. -/
theorem firstPass_mapping_injective_and_in_range (rand : Nat → Nat)
    (fuel : Nat) (rows : List (List (List Char))) (st : MapSt)
    (h : buildMapping rand fuel rows = some st) : IdMapOK st := by
  obtain ⟨hnd, hmem⟩ := buildMapping_inv h
  refine ⟨?_, ?_⟩
  · intro k1 k2 v h1 h2
    exact nodup_snd_key_unique hnd (lookupM_mem h1) (lookupM_mem h2)
  · intro k v hkv
    exact ((hmem (k, v) (lookupM_mem hkv)).2)

/-- Witness for C1: the first pass on one concrete row assigns IDs `1`
and `2` to legacy IDs `1` and `2`, and the resulting mapping satisfies
the invariant. -/
theorem firstPass_mapping_injective_and_in_range_witness :
    IdMapOK ⟨[(2, 2), (1, 1)], [2, 1], 2⟩ :=
  firstPass_mapping_injective_and_in_range (fun i => i) 2
    [[chars "1", [], [], [], [], [], chars "2"]] _ (by decide)

/-! ## Lemmas about the row transformer -/

theorem transformRow_ok_elim {m : List (Int × Nat)} {row nr : List (List Char)}
    (h : transformRow m row = TRes.ok nr) :
    ∃ a b nOwn nValid, 8 ≤ row.length ∧
      parseInt (row.getD 0 []) = some a ∧ parseInt (row.getD 6 []) = some b ∧
      lookupM m a = some nOwn ∧ lookupM m b = some nValid ∧
      nr = [natToChars nOwn, row.getD 1 [], row.getD 2 [], row.getD 3 [],
        row.getD 5 [], natToChars nValid, row.getD 7 [], [], []] := by
  unfold transformRow at h
  split at h
  · rename_i h8
    split at h
    · exact absurd h (by simp)
    · rename_i own hown
      split at h
      · exact absurd h (by simp)
      · rename_i valid hvalid
        split at h
        · exact absurd h (by simp)
        · rename_i nOwn hOwn
          split at h
          · exact absurd h (by simp)
          · rename_i nValid hValid
            refine ⟨own, valid, nOwn, nValid, h8, hown, hvalid, hOwn, hValid, ?_⟩
            have := h
            simp only [TRes.ok.injEq] at this
            exact this.symm
  · exact absurd h (by simp)

theorem transformRow_ok_of {m : List (Int × Nat)} {row : List (List Char)}
    {a b : Int} {na nb : Nat} (h8 : 8 ≤ row.length)
    (ha : parseInt (row.getD 0 []) = some a)
    (hb : parseInt (row.getD 6 []) = some b)
    (hna : lookupM m a = some na) (hnb : lookupM m b = some nb) :
    transformRow m row = TRes.ok [natToChars na, row.getD 1 [], row.getD 2 [],
      row.getD 3 [], row.getD 5 [], natToChars nb, row.getD 7 [], [], []] := by
  unfold transformRow
  rw [if_pos h8]
  simp only [ha, hb, hna, hnb]

theorem transformRow_skip_elim {m : List (Int × Nat)} {row : List (List Char)}
    (h8 : 8 ≤ row.length) (h : transformRow m row = TRes.skip) :
    parseInt (row.getD 0 []) = none ∨ parseInt (row.getD 6 []) = none := by
  unfold transformRow at h
  rw [if_pos h8] at h
  split at h
  · rename_i h0; exact Or.inl h0
  · split at h
    · rename_i h6; exact Or.inr h6
    · split at h
      · exact absurd h (by simp)
      · split at h
        · exact absurd h (by simp)
        · exact absurd h (by simp)

theorem transformRow_short {m : List (Int × Nat)} {row : List (List Char)}
    (h : row.length < 8) : transformRow m row = TRes.skip := by
  unfold transformRow
  rw [if_neg (by omega)]

/-- Claim C4: for every raw row with at least 8 fields whose fields 0 and
6 both parse as integers, both legacy IDs are keys of the mapping built by
the first pass over the same row list, so the transformer's dictionary
lookups never fail (no `crash`); and the defensive skip branch of the
transformer fires only when integer parsing fails. -/
theorem mapping_covers_and_defensive_skip (rand : Nat → Nat) (fuel : Nat)
    (rows : List (List (List Char))) (st : MapSt)
    (h : buildMapping rand fuel rows = some st) :
    ∀ row ∈ rows, 8 ≤ row.length →
      (∀ a b, parseInt (row.getD 0 []) = some a →
        parseInt (row.getD 6 []) = some b →
        (lookupM st.m a).isSome ∧ (lookupM st.m b).isSome ∧
          transformRow st.m row ≠ TRes.crash) ∧
      (transformRow st.m row = TRes.skip →
        parseInt (row.getD 0 []) = none ∨ parseInt (row.getD 6 []) = none) := by
  intro row hmem h8
  refine ⟨?_, transformRow_skip_elim h8⟩
  intro a b ha hb
  obtain ⟨hA, hB⟩ := foldFirst_covers rows _ st row h hmem (by omega) ha hb
  obtain ⟨na, hna⟩ := Option.isSome_iff_exists.mp hA
  obtain ⟨nb, hnb⟩ := Option.isSome_iff_exists.mp hB
  refine ⟨hA, hB, ?_⟩
  rw [transformRow_ok_of h8 ha hb hna hnb]
  simp

/-- Witness for C4 at a concrete one-row input: both legacy IDs of the
row are mapped and the transformer does not crash on it. -/
theorem mapping_covers_and_defensive_skip_witness :
    (lookupM (MapSt.mk [(1, 1)] [1] 1).m 1).isSome ∧
    (lookupM (MapSt.mk [(1, 1)] [1] 1).m 1).isSome ∧
    transformRow (MapSt.mk [(1, 1)] [1] 1).m
      [chars "1", chars "n", chars "g", chars "s", chars "a", chars "f",
        chars "1", chars "v"] ≠ TRes.crash :=
  (mapping_covers_and_defensive_skip (fun i => i) 1
    [[chars "1", chars "n", chars "g", chars "s", chars "a", chars "f",
      chars "1", chars "v"]] _ (by decide)
    [chars "1", chars "n", chars "g", chars "s", chars "a", chars "f",
      chars "1", chars "v"] (by decide) (by decide)).1 1 1 (by decide)
    (by decide)

/-- Claim C2: for every transformed row, the new valid-ID field is the
image of the row's legacy valid-ID under the same mapping used for the
new own-ID field; if the legacy own-ID equals the legacy valid-ID, the
new own-ID field equals the new valid-ID field. -/
theorem referential_integrity (m : List (Int × Nat))
    (row nr : List (List Char)) (h : transformRow m row = TRes.ok nr) :
    ∃ a b nb, parseInt (row.getD 0 []) = some a ∧
      parseInt (row.getD 6 []) = some b ∧ lookupM m b = some nb ∧
      nr.getD 5 [] = natToChars nb ∧
      (a = b → nr.getD 0 [] = nr.getD 5 []) := by
  obtain ⟨a, b, nOwn, nValid, h8, ha, hb, hOwn, hValid, rfl⟩ :=
    transformRow_ok_elim h
  refine ⟨a, b, nValid, ha, hb, hValid, rfl, ?_⟩
  rintro rfl
  rw [hOwn] at hValid
  obtain rfl : nOwn = nValid := by simpa using hValid
  rfl

/-- Witness for C2 at a concrete row whose own-ID equals its valid-ID. -/
theorem referential_integrity_witness :
    ∃ a b nb,
      parseInt (([chars "1", chars "n", chars "g", chars "s", chars "a",
        chars "f", chars "1", chars "v"] : List (List Char)).getD 0 []) =
          some a ∧
      parseInt (([chars "1", chars "n", chars "g", chars "s", chars "a",
        chars "f", chars "1", chars "v"] : List (List Char)).getD 6 []) =
          some b ∧
      lookupM [(1, 1)] b = some nb ∧
      (([chars "1", chars "n", chars "g", chars "s", chars "f", chars "1",
        chars "v", [], []] : List (List Char)).getD 5 []) = natToChars nb ∧
      (a = b →
        (([chars "1", chars "n", chars "g", chars "s", chars "f", chars "1",
          chars "v", [], []] : List (List Char)).getD 0 []) =
        (([chars "1", chars "n", chars "g", chars "s", chars "f", chars "1",
          chars "v", [], []] : List (List Char)).getD 5 [])) :=
  referential_integrity [(1, 1)]
    [chars "1", chars "n", chars "g", chars "s", chars "a", chars "f",
      chars "1", chars "v"]
    [chars "1", chars "n", chars "g", chars "s", chars "f", chars "1",
      chars "v", [], []] (by decide)

/-- Claim C5: every transformed row has exactly 9 fields, in the order
new-own-ID, name, genus, species-epithet, synonym flag, new-valid-ID,
valid-name, parent-ID, parent-name; name, genus, species-epithet, synonym
flag and valid-name are copied verbatim from positions 1, 2, 3, 5 and 7
of the raw row (the author field at 4 and any secundum field at 8 are
discarded), and the two parent fields are always the empty string. -/
theorem transformed_row_shape (m : List (Int × Nat))
    (row nr : List (List Char)) (h : transformRow m row = TRes.ok nr) :
    nr.length = 9 ∧ ∃ a b nOwn nValid,
      parseInt (row.getD 0 []) = some a ∧ parseInt (row.getD 6 []) = some b ∧
      lookupM m a = some nOwn ∧ lookupM m b = some nValid ∧
      nr = [natToChars nOwn, row.getD 1 [], row.getD 2 [], row.getD 3 [],
        row.getD 5 [], natToChars nValid, row.getD 7 [], [], []] := by
  obtain ⟨a, b, nOwn, nValid, h8, ha, hb, hOwn, hValid, rfl⟩ :=
    transformRow_ok_elim h
  exact ⟨rfl, a, b, nOwn, nValid, ha, hb, hOwn, hValid, rfl⟩

/-- Witness for C5 at a concrete row. -/
theorem transformed_row_shape_witness :
    ([chars "1", chars "n", chars "g", chars "s", chars "f", chars "1",
      chars "v", [], []] : List (List Char)).length = 9 ∧
    ∃ a b nOwn nValid,
      parseInt (([chars "1", chars "n", chars "g", chars "s", chars "a",
        chars "f", chars "1", chars "v"] : List (List Char)).getD 0 []) =
          some a ∧
      parseInt (([chars "1", chars "n", chars "g", chars "s", chars "a",
        chars "f", chars "1", chars "v"] : List (List Char)).getD 6 []) =
          some b ∧
      lookupM [(1, 1)] a = some nOwn ∧ lookupM [(1, 1)] b = some nValid ∧
      ([chars "1", chars "n", chars "g", chars "s", chars "f", chars "1",
        chars "v", [], []] : List (List Char)) =
        [natToChars nOwn,
          ([chars "1", chars "n", chars "g", chars "s", chars "a", chars "f",
            chars "1", chars "v"] : List (List Char)).getD 1 [],
          ([chars "1", chars "n", chars "g", chars "s", chars "a", chars "f",
            chars "1", chars "v"] : List (List Char)).getD 2 [],
          ([chars "1", chars "n", chars "g", chars "s", chars "a", chars "f",
            chars "1", chars "v"] : List (List Char)).getD 3 [],
          ([chars "1", chars "n", chars "g", chars "s", chars "a", chars "f",
            chars "1", chars "v"] : List (List Char)).getD 5 [],
          natToChars nValid,
          ([chars "1", chars "n", chars "g", chars "s", chars "a", chars "f",
            chars "1", chars "v"] : List (List Char)).getD 7 [], [], []] :=
  transformed_row_shape [(1, 1)]
    [chars "1", chars "n", chars "g", chars "s", chars "a", chars "f",
      chars "1", chars "v"]
    [chars "1", chars "n", chars "g", chars "s", chars "f", chars "1",
      chars "v", [], []] (by decide)

/-! ## Lemmas about the record parser -/

theorem parseLine_blank {st : ParseSt} {raw : List Char}
    (hemp : pyStrip raw = []) : parseLine st raw = st := by
  unfold parseLine
  simp [hemp]

theorem parseLine_after_keep {st : ParseSt} {raw : List Char}
    (h : st.headerFound = true) (hemp : pyStrip raw ≠ [])
    (h8 : 8 ≤ (splitOnChar ';' (pyStrip raw)).length) :
    parseLine st raw =
      { st with rows := st.rows ++ [splitOnChar ';' (pyStrip raw)] } := by
  unfold parseLine
  simp [hemp, h, h8]

theorem parseLine_after_drop {st : ParseSt} {raw : List Char}
    (h : st.headerFound = true) (hemp : pyStrip raw ≠ [])
    (h8 : ¬ 8 ≤ (splitOnChar ';' (pyStrip raw)).length) :
    parseLine st raw = st := by
  unfold parseLine
  simp [hemp, h, h8]

theorem parseLine_found_header {st : ParseSt} {raw : List Char}
    (h : st.headerFound = false) (hemp : pyStrip raw ≠ [])
    (hsem : ';' ∈ pyStrip raw)
    (hhd : isHeaderLine (pyStrip raw) = true) :
    parseLine st raw = { st with headerFound := true } := by
  unfold parseLine
  simp [hemp, h, hsem, hhd]

theorem parseLine_meta {st : ParseSt} {raw : List Char}
    (h : st.headerFound = false) (hemp : pyStrip raw ≠ [])
    (hsem : ';' ∈ pyStrip raw)
    (hhd : isHeaderLine (pyStrip raw) = false) :
    parseLine st raw = { st with meta := st.meta ++ [pyStrip raw] } := by
  unfold parseLine
  simp [hemp, h, hsem, hhd]

theorem parseLine_ignored {st : ParseSt} {raw : List Char}
    (h : st.headerFound = false) (hemp : pyStrip raw ≠ [])
    (hsem : ';' ∉ pyStrip raw) :
    parseLine st raw = st := by
  unfold parseLine
  simp [hemp, h, hsem]

theorem dataLinesAux_blank {f : Bool} {raw : List Char}
    {rest : List (List Char)} (hemp : pyStrip raw = []) :
    dataLinesAux f (raw :: rest) = dataLinesAux f rest := by
  simp only [dataLinesAux]
  simp [hemp]

theorem dataLinesAux_found {raw : List Char} {rest : List (List Char)}
    (hemp : pyStrip raw ≠ []) :
    dataLinesAux true (raw :: rest) = pyStrip raw :: dataLinesAux true rest := by
  simp only [dataLinesAux]
  simp [hemp]

theorem dataLinesAux_header {raw : List Char} {rest : List (List Char)}
    (hemp : pyStrip raw ≠ []) (hsem : ';' ∈ pyStrip raw)
    (hhd : isHeaderLine (pyStrip raw) = true) :
    dataLinesAux false (raw :: rest) = dataLinesAux true rest := by
  simp only [dataLinesAux]
  simp [hemp, hsem, hhd]

theorem dataLinesAux_not_header {raw : List Char} {rest : List (List Char)}
    (hemp : pyStrip raw ≠ [])
    (hcond : ¬ (';' ∈ pyStrip raw ∧ isHeaderLine (pyStrip raw) = true)) :
    dataLinesAux false (raw :: rest) = dataLinesAux false rest := by
  simp only [dataLinesAux]
  simp [hemp, hcond]

theorem parse_rows_after :
    ∀ (lines : List (List Char)) (st : ParseSt), st.headerFound = true →
      (lines.foldl parseLine st).rows = st.rows ++
        ((dataLinesAux true lines).map (splitOnChar ';')).filter
          (fun p => decide (8 ≤ p.length)) := by
  intro lines
  induction lines with
  | nil => intro st h; simp [dataLinesAux]
  | cons raw rest ih =>
    intro st h
    rw [List.foldl_cons]
    by_cases hemp : pyStrip raw = []
    · rw [parseLine_blank hemp, dataLinesAux_blank hemp]
      exact ih st h
    · rw [dataLinesAux_found hemp]
      by_cases h8 : 8 ≤ (splitOnChar ';' (pyStrip raw)).length
      · rw [parseLine_after_keep h hemp h8]
        rw [ih { st with rows := st.rows ++ [splitOnChar ';' (pyStrip raw)] } h]
        simp [h8, List.append_assoc]
      · rw [parseLine_after_drop h hemp h8]
        rw [ih st h]
        simp [h8]

theorem parse_rows_before :
    ∀ (lines : List (List Char)) (st : ParseSt), st.headerFound = false →
      (lines.foldl parseLine st).rows = st.rows ++
        ((dataLinesAux false lines).map (splitOnChar ';')).filter
          (fun p => decide (8 ≤ p.length)) := by
  intro lines
  induction lines with
  | nil => intro st h; simp [dataLinesAux]
  | cons raw rest ih =>
    intro st h
    rw [List.foldl_cons]
    by_cases hemp : pyStrip raw = []
    · rw [parseLine_blank hemp, dataLinesAux_blank hemp]
      exact ih st h
    · by_cases hsem : ';' ∈ pyStrip raw
      · cases hhd : isHeaderLine (pyStrip raw) with
        | true =>
          rw [parseLine_found_header h hemp hsem hhd,
            dataLinesAux_header hemp hsem hhd]
          exact parse_rows_after rest _ rfl
        | false =>
          rw [parseLine_meta h hemp hsem hhd,
            dataLinesAux_not_header hemp (by simp [hhd])]
          exact ih { st with meta := st.meta ++ [pyStrip raw] } h
      · rw [parseLine_ignored h hemp hsem,
          dataLinesAux_not_header hemp (by simp [hsem])]
        exact ih st h

theorem parse_rows_char (lines : List (List Char)) :
    (parse_csv_file lines).rows =
      ((dataLines lines).map (splitOnChar ';')).filter
        (fun p => decide (8 ≤ p.length)) := by
  have := parse_rows_before lines ⟨false, [], []⟩ rfl
  simpa [parse_csv_file, dataLines] using this

/-! ## Lemmas combining the two passes -/

theorem transformRow_crash_elim {m : List (Int × Nat)} {row : List (List Char)}
    (h : transformRow m row = TRes.crash) :
    ∃ a b, 8 ≤ row.length ∧ parseInt (row.getD 0 []) = some a ∧
      parseInt (row.getD 6 []) = some b ∧
      (lookupM m a = none ∨ lookupM m b = none) := by
  unfold transformRow at h
  split at h
  · rename_i h8
    split at h
    · exact absurd h (by simp)
    · rename_i own hown
      split at h
      · exact absurd h (by simp)
      · rename_i valid hvalid
        split at h
        · rename_i hl
          exact ⟨own, valid, h8, hown, hvalid, Or.inl hl⟩
        · rename_i nOwn hOwn
          split at h
          · rename_i hl
            exact ⟨own, valid, h8, hown, hvalid, Or.inr hl⟩
          · exact absurd h (by simp)
  · exact absurd h (by simp)

theorem transformRow_skip_of_parse0 {m : List (Int × Nat)}
    {row : List (List Char)} (h8 : 8 ≤ row.length)
    (h : parseInt (row.getD 0 []) = none) : transformRow m row = TRes.skip := by
  unfold transformRow
  rw [if_pos h8, h]

theorem transformRow_skip_of_parse6 {m : List (Int × Nat)}
    {row : List (List Char)} {a : Int} (h8 : 8 ≤ row.length)
    (h0 : parseInt (row.getD 0 []) = some a)
    (h : parseInt (row.getD 6 []) = none) : transformRow m row = TRes.skip := by
  unfold transformRow
  rw [if_pos h8, h0, h]

theorem runTransform_eq_filterMap {m : List (Int × Nat)} :
    ∀ (rows : List (List (List Char))),
      (∀ row ∈ rows, transformRow m row ≠ TRes.crash) →
      runTransform m rows =
        some (rows.filterMap (fun r => toOpt (transformRow m r))) := by
  intro rows
  induction rows with
  | nil => intro _; simp [runTransform]
  | cons r rs ih =>
    intro hnc
    have hr := hnc r (List.mem_cons_self _ _)
    have hrest := ih fun row hm => hnc row (List.mem_cons_of_mem _ hm)
    unfold runTransform
    cases ht : transformRow m r with
    | crash => exact absurd ht hr
    | skip => rw [hrest]; simp [List.filterMap_cons, ht, toOpt]
    | ok nr => rw [hrest]; simp [List.filterMap_cons, ht, toOpt]

theorem filterMap_filter_split {g : List (List Char) → Option (List (List Char))}
    (hg : ∀ p, ¬ 8 ≤ p.length → g p = none) :
    ∀ ls : List (List Char),
      ((ls.map (splitOnChar ';')).filter
        (fun p => decide (8 ≤ p.length))).filterMap g =
      ls.filterMap (fun l => g (splitOnChar ';' l)) := by
  intro ls
  induction ls with
  | nil => simp
  | cons l rest ih =>
    by_cases h8 : 8 ≤ (splitOnChar ';' l).length
    · simp only [List.map_cons, List.filter_cons]
      rw [if_pos (by simpa using h8)]
      rw [List.filterMap_cons, List.filterMap_cons]
      cases hG : g (splitOnChar ';' l) <;> simp [hG, ih]
    · simp only [List.map_cons, List.filter_cons]
      rw [if_neg (by simpa using h8)]
      rw [List.filterMap_cons, hg _ h8]
      exact ih

theorem keepsRow_eq (l : List Char) :
    keepsRow l = (decide (8 ≤ (splitOnChar ';' l).length) &&
      (parseInt ((splitOnChar ';' l).getD 0 [])).isSome &&
      (parseInt ((splitOnChar ';' l).getD 6 [])).isSome) := rfl

/-- Claim C3: the data rows dropped from the output are exactly those
with fewer than 8 `;`-separated fields or whose own-ID (field 0) or
valid-ID (field 6) does not parse as an integer; consequently the number
of output data rows is at most the number of input data lines. -/
theorem row_count_law (rand : Nat → Nat) (fuel : Nat)
    (lines : List (List Char)) (st : MapSt)
    (h : buildMapping rand fuel (parse_csv_file lines).rows = some st) :
    DropLaw st lines := by
  have hrows := parse_rows_char lines
  have hnc : ∀ row ∈ (parse_csv_file lines).rows,
      transformRow st.m row ≠ TRes.crash := by
    intro row hm hc
    obtain ⟨a, b, h8, ha, hb, hl⟩ := transformRow_crash_elim hc
    obtain ⟨hA, hB⟩ := foldFirst_covers _ _ st row h hm (by omega) ha hb
    rcases hl with hl | hl
    · rw [hl] at hA; simp at hA
    · rw [hl] at hB; simp at hB
  have hg : ∀ p : List (List Char), ¬ 8 ≤ p.length →
      toOpt (transformRow st.m p) = none := by
    intro p hp
    rw [transformRow_short (by omega)]
    rfl
  have hrun := runTransform_eq_filterMap (parse_csv_file lines).rows hnc
  refine ⟨(parse_csv_file lines).rows.filterMap
    (fun r => toOpt (transformRow st.m r)), hrun, ?_, ?_, ?_⟩
  · rw [hrows, filterMap_filter_split hg]
  · intro l hl
    rw [keepsRow_eq]
    by_cases h8 : 8 ≤ (splitOnChar ';' l).length
    · cases hpa : parseInt ((splitOnChar ';' l).getD 0 []) with
      | none =>
        rw [transformRow_skip_of_parse0 h8 hpa]
        simp [toOpt]
      | some a =>
        cases hpb : parseInt ((splitOnChar ';' l).getD 6 []) with
        | none =>
          rw [transformRow_skip_of_parse6 h8 hpa hpb]
          simp [toOpt]
        | some b =>
          have hmem : splitOnChar ';' l ∈ (parse_csv_file lines).rows := by
            rw [hrows]
            exact List.mem_filter.mpr
              ⟨List.mem_map.mpr ⟨l, hl, rfl⟩, by simpa using h8⟩
          obtain ⟨hA, hB⟩ :=
            foldFirst_covers _ _ st _ h hmem (by omega) hpa hpb
          obtain ⟨na, hna⟩ := Option.isSome_iff_exists.mp hA
          obtain ⟨nb, hnb⟩ := Option.isSome_iff_exists.mp hB
          rw [transformRow_ok_of h8 hpa hpb hna hnb]
          simp [toOpt, h8]
    · rw [transformRow_short (by omega)]
      simp [toOpt, h8]
  · rw [hrows, filterMap_filter_split hg]
    exact List.length_filterMap_le _ _

/-- Witness for C3 at a concrete two-line input (header plus one data
row). -/
theorem row_count_law_witness :
    DropLaw ⟨[(1, 1)], [1], 1⟩
      [chars "SPECIES_NR;NAME;GENUS", chars "1;n;g;s;a;f;1;v"] :=
  row_count_law (fun i => i) 1
    [chars "SPECIES_NR;NAME;GENUS", chars "1;n;g;s;a;f;1;v"] _ (by decide)

/-! ## The serialized-output factoring and the metadata stage -/

theorem transform_eq_normalized (rand : Nat → Nat) (fuel : Nat)
    (lines : List (List Char)) :
    transform_species_csv rand fuel lines =
      (serializedOutput rand fuel lines).map boolNormalize := by
  simp only [transform_species_csv, serializedOutput]
  cases hb : buildMapping rand fuel (parse_csv_file lines).rows with
  | none => rfl
  | some mst =>
    cases hr : runTransform mst.m (parse_csv_file lines).rows with
    | none => simp [hr]
    | some out => simp [hr, boolNormalize, serializeOutput]

/-- Claim C6: boolean-token normalization is a post-processing
substitution on the fully serialized output text, not a per-field
operation: the final output is exactly the `;WAHR;`→`;TRUE;` and
`;FALSCH;`→`;FALSE;` substitution applied to the whole serialized text,
and (second conjunct) it also fires inside a metadata line. -/
theorem boolean_normalization_whole_text :
    (∀ (rand : Nat → Nat) (fuel : Nat) (lines : List (List Char)),
      transform_species_csv rand fuel lines =
        (serializedOutput rand fuel lines).map boolNormalize) ∧
    transform_species_csv (fun i => i) 1 [chars "NOTE;WAHR;1"] =
      some (chars "NOTE;TRUE;1\n" ++ newHeader ++ ['\n']) :=
  ⟨transform_eq_normalized, by decide⟩

/-- Counterexample to claim C7 as stated: the metadata line `X;FALSCH;y`
does not begin with `SPECIES_LU_VERSION`, yet it is not byte-identical in
the output — the whole-file boolean substitution rewrites it to
`X;FALSE;y`. -/
theorem metadata_line_altered_in_output :
    (parse_csv_file [chars "X;FALSCH;y"]).meta = [chars "X;FALSCH;y"] ∧
    (chars "SPECIES_LU_VERSION").isPrefixOf (chars "X;FALSCH;y") = false ∧
    transform_species_csv (fun i => i) 1 [chars "X;FALSCH;y"] =
      some (chars "X;FALSE;y\n" ++ newHeader ++ ['\n']) ∧
    chars "X;FALSE;y" ≠ chars "X;FALSCH;y" := by decide

/-- Claim C7 (amended): at the metadata-rewrite stage, a metadata line
beginning with `SPECIES_LU_VERSION` and containing a `;` becomes
`SPECIES_LU` followed by everything after the first `;` verbatim (with a
plain substring replacement as fallback when no `;` is present), and
every other metadata line is left unchanged by that stage; the final
output then applies the whole-text boolean-token substitution on top, so
other metadata lines are byte-identical only up to that substitution. -/
theorem metadata_rewrite_stage (l : List Char) :
    ((chars "SPECIES_LU_VERSION").isPrefixOf l = true →
      l.contains ';' = true →
      fixMetaLine l =
        chars "SPECIES_LU;" ++ (l.dropWhile (fun c => c != ';')).tail) ∧
    ((chars "SPECIES_LU_VERSION").isPrefixOf l = true →
      l.contains ';' = false →
      fixMetaLine l =
        replaceAll (chars "SPECIES_LU_VERSION") (chars "SPECIES_LU") l) ∧
    ((chars "SPECIES_LU_VERSION").isPrefixOf l = false → fixMetaLine l = l) ∧
    (∀ (rand : Nat → Nat) (fuel : Nat) (lines : List (List Char)),
      transform_species_csv rand fuel lines =
        (serializedOutput rand fuel lines).map boolNormalize) := by
  refine ⟨?_, ?_, ?_, transform_eq_normalized⟩
  · intro hp hc
    unfold fixMetaLine
    rw [if_pos hp, if_pos hc]
  · intro hp hc
    unfold fixMetaLine
    rw [if_pos hp, if_neg (by simpa using hc)]
  · intro hp
    unfold fixMetaLine
    rw [if_neg (by simp [hp])]

/-- Witness for the amended C7: the rewrite on a concrete version line. -/
theorem metadata_rewrite_stage_witness :
    fixMetaLine (chars "SPECIES_LU_VERSION;3.2") = chars "SPECIES_LU;3.2" := by
  have h := (metadata_rewrite_stage (chars "SPECIES_LU_VERSION;3.2")).1
    (by decide) (by decide)
  rw [h]
  decide

/-- Counterexample to claim C8 as stated: in the before-header state, a
non-blank line containing the substrings `SPECIES_NR`, `NAME` and `GENUS`
but no `;` is NOT recognized as the data header (nor stored): the parser
state is unchanged, so recognition is not "exactly when" the three
substrings occur. -/
theorem header_requires_semicolon_cex :
    pyStrip (chars "SPECIES_NR NAME GENUS") = chars "SPECIES_NR NAME GENUS" ∧
    isHeaderLine (chars "SPECIES_NR NAME GENUS") = true ∧
    (chars "SPECIES_NR NAME GENUS" : List Char) ≠ [] ∧
    parseLine ⟨false, [], []⟩ (chars "SPECIES_NR NAME GENUS") =
      ⟨false, [], []⟩ := by decide

/-- Claim C8 (amended): in the before-header state a non-blank line is
recognized and consumed as the data header exactly when it contains `;`
AND the three substrings `SPECIES_NR`, `NAME`, `GENUS`; a `;`-line not
recognized as the header is stored as metadata; a line without `;` is
ignored; and once the header is found the parser never leaves the
after-header state. -/
theorem header_recognition_amended (st : ParseSt) (l : List Char) :
    (st.headerFound = false → pyStrip l ≠ [] →
      (((parseLine st l).headerFound = true) ↔
        (';' ∈ pyStrip l ∧ isHeaderLine (pyStrip l) = true)) ∧
      (';' ∈ pyStrip l → isHeaderLine (pyStrip l) = false →
        parseLine st l = { st with meta := st.meta ++ [pyStrip l] }) ∧
      (';' ∉ pyStrip l → parseLine st l = st)) ∧
    (st.headerFound = true → (parseLine st l).headerFound = true) := by
  constructor
  · intro h hne
    refine ⟨⟨?_, ?_⟩, parseLine_meta h hne, parseLine_ignored h hne⟩
    · intro hf
      by_cases hsem : ';' ∈ pyStrip l
      · cases hhd : isHeaderLine (pyStrip l) with
        | true => exact ⟨hsem, rfl⟩
        | false =>
          rw [parseLine_meta h hne hsem hhd] at hf
          rw [show ({ st with meta := st.meta ++ [pyStrip l] } :
            ParseSt).headerFound = st.headerFound from rfl, h] at hf
          exact absurd hf (by simp)
      · rw [parseLine_ignored h hne hsem, h] at hf
        exact absurd hf (by simp)
    · rintro ⟨hsem, hhd⟩
      rw [parseLine_found_header h hne hsem hhd]
  · intro h
    by_cases hemp : pyStrip l = []
    · rw [parseLine_blank hemp]; exact h
    · by_cases h8 : 8 ≤ (splitOnChar ';' (pyStrip l)).length
      · rw [parseLine_after_keep h hemp h8]; exact h
      · rw [parseLine_after_drop h hemp h8]; exact h

/-- Witness for the amended C8: a concrete non-header metadata line is
stored, leaving the header-found flag unset. -/
theorem header_recognition_amended_witness :
    parseLine ⟨false, [], []⟩ (chars "A;B") = ⟨false, [chars "A;B"], []⟩ := by
  have h := ((header_recognition_amended ⟨false, [], []⟩ (chars "A;B")).1
    rfl (by decide)).2.1 (by decide) (by decide)
  rw [h]
  decide

/-- Counterexample to claim C9 as stated: a raw row with a single field
`5` (field 6 absent, field count insufficient) whose own-ID parses is
not processed with a defaulted valid-ID: the first pass leaves the
mapping empty, so the row contributed no valid-ID (nor any own-ID). -/
theorem short_row_contributes_nothing :
    parseInt (chars "5") = some 5 ∧
    ([chars "5"] : List (List Char)).length < 7 ∧
    buildMapping (fun i => i) 1 [[chars "5"]] = some ⟨[], [], 0⟩ ∧
    lookupM ([] : List (Int × Nat)) 5 = none := by decide

/-- Claim C9 (amended): the own-ID defaulting branch for a missing field
6 is dead code — the first pass skips any row with fewer than 7 fields
entirely (the mapping state is unchanged, the row contributes no IDs at
all); for processed rows field 6 is always present and the valid-ID is
parsed from field 6 and entered into the mapping. -/
theorem short_row_amended (rand : Nat → Nat) (fuel : Nat) (st : MapSt)
    (row : List (List Char)) :
    (row.length < 7 → firstPassRow rand fuel st row = some st) ∧
    (∀ st2 a b, 7 ≤ row.length → parseInt (row.getD 0 []) = some a →
      parseInt (row.getD 6 []) = some b →
      firstPassRow rand fuel st row = some st2 →
      (lookupM st2.m a).isSome ∧ (lookupM st2.m b).isSome) := by
  constructor
  · intro h7
    unfold firstPassRow
    rw [if_neg (by omega)]
  · intro st2 a b h7 ha hb hrun
    obtain ⟨stA, hins, hins2⟩ := firstPassRow_process h7 ha hb hrun
    exact ⟨insertId_mono_isSome hins2 (insertId_isSome hins),
      insertId_isSome hins2⟩

/-- Witness for the amended C9: a concrete one-field row is skipped and
changes nothing. -/
theorem short_row_amended_witness :
    firstPassRow (fun i => i) 1 ⟨[], [], 0⟩ [chars "5"] = some ⟨[], [], 0⟩ :=
  (short_row_amended (fun i => i) 1 ⟨[], [], 0⟩ [chars "5"]).1 (by decide)

/-! ## The header-less input case -/

theorem parse_noheader :
    ∀ (lines : List (List Char)) (st : ParseSt),
      (∀ l ∈ lines, isHeaderLine (pyStrip l) = false) →
      st.headerFound = false →
      lines.foldl parseLine st =
        ⟨false, st.meta ++ lines.filterMap (fun l =>
          if pyStrip l ≠ [] ∧ ';' ∈ pyStrip l then some (pyStrip l) else none),
          st.rows⟩ := by
  intro lines
  induction lines with
  | nil =>
    intro st hall h
    obtain ⟨f, me, ro⟩ := st
    simp only at h
    subst h
    simp
  | cons raw rest ih =>
    intro st hall h
    have hhd : isHeaderLine (pyStrip raw) = false :=
      hall raw (List.mem_cons_self _ _)
    have hall2 : ∀ l ∈ rest, isHeaderLine (pyStrip l) = false :=
      fun l hl => hall l (List.mem_cons_of_mem _ hl)
    rw [List.foldl_cons, List.filterMap_cons]
    by_cases hemp : pyStrip raw = []
    · rw [parseLine_blank hemp]
      simp only [hemp]
      rw [ih st hall2 h]
      simp
    · by_cases hsem : ';' ∈ pyStrip raw
      · rw [parseLine_meta h hemp hsem hhd]
        rw [ih { st with meta := st.meta ++ [pyStrip raw] } hall2 h]
        simp [hemp, hsem, List.append_assoc]
      · rw [parseLine_ignored h hemp hsem]
        rw [ih st hall2 h]
        simp [hsem]

/-- Claim C10: on an input in which no line contains the three header
substrings, the transformation completes, every `;`-containing non-blank
line is treated as metadata, there are no data rows, and the output is
the (rewritten, boolean-normalized) metadata followed by the fixed new
header and nothing else. -/
theorem no_header_behavior (rand : Nat → Nat) (fuel : Nat)
    (lines : List (List Char))
    (h : ∀ l ∈ lines, isHeaderLine (pyStrip l) = false) :
    (parse_csv_file lines).headerFound = false ∧
    (parse_csv_file lines).rows = [] ∧
    (parse_csv_file lines).meta = lines.filterMap (fun l =>
      if pyStrip l ≠ [] ∧ ';' ∈ pyStrip l then some (pyStrip l) else none) ∧
    transform_species_csv rand fuel lines =
      some (boolNormalize (serializeOutput
        ((parse_csv_file lines).meta.map fixMetaLine) [])) := by
  have hps : parse_csv_file lines =
      ⟨false, lines.filterMap (fun l =>
        if pyStrip l ≠ [] ∧ ';' ∈ pyStrip l then some (pyStrip l) else none),
        []⟩ := by
    have hp := parse_noheader lines ⟨false, [], []⟩ h rfl
    simpa [parse_csv_file] using hp
  refine ⟨by rw [hps], by rw [hps], by rw [hps], ?_⟩
  rw [transform_eq_normalized, serializedOutput, hps]
  simp [buildMapping, runTransform, List.foldlM]

/-- Witness for C10 at a concrete two-line header-less input. -/
theorem no_header_behavior_witness :
    (parse_csv_file [chars "A;1", chars "plain"]).headerFound = false ∧
    (parse_csv_file [chars "A;1", chars "plain"]).rows = [] ∧
    (parse_csv_file [chars "A;1", chars "plain"]).meta =
      ([chars "A;1", chars "plain"] : List (List Char)).filterMap (fun l =>
        if pyStrip l ≠ [] ∧ ';' ∈ pyStrip l then some (pyStrip l) else none) ∧
    transform_species_csv (fun i => i) 1 [chars "A;1", chars "plain"] =
      some (boolNormalize (serializeOutput
        ((parse_csv_file [chars "A;1", chars "plain"]).meta.map fixMetaLine)
        [])) :=
  no_header_behavior (fun i => i) 1 [chars "A;1", chars "plain"] (by decide)

end SpeciesCsv
